import Mathlib

/-
Verification development for the StS localization converter (sts-l10n.py).

The program converts localization data between JSON and a custom CSV-like
tabular format.  This file gives a shallow embedding of the program's core:

  * `JVal` models the JSON values the program manipulates (strings, numbers,
    booleans, null, arrays, objects as ordered key/value lists);
  * `RecordNameParts` operations model the `::`-joined name paths;
  * `PureRecord` / `CSVRecord` model the two record representations;
  * `CSVRecordReader` functions model the row-parsing state machine — Python's
    row iterator becomes an explicit `List Row` that each step consumes from;
  * `collect_records_from_json` models the JSON flattener and `include_record`
    / `write_records_to_json` the JSON builder on ordered dictionaries;
  * Python exceptions become the `PyErr` error type threaded through `Except`.

Machine integers do not occur (Python integers are unbounded, modelled as
`Int`/`Nat`); Python's `int(...)` string parsing and `str(...)` rendering of
integers are modelled by `pythonInt` / `natToDecimalString`.
-/

namespace StsL10n

/-- A raw tabular row: an ordered list of string cells (what the csv module
hands to / receives from the program). -/
abbrev Row := List String

/-- JSON values as manipulated by the program.  Objects are ordered lists of
key/value pairs, mirroring the `OrderedDict` the program loads JSON into. -/
inductive JVal where
  | str (s : String)
  | num (n : Int)
  | bool (b : Bool)
  | null
  | arr (elems : List JVal)
  | obj (fields : List (String × JVal))

/-- An ordered JSON object: the shape of `OutputJSONDict` and of loaded JSON
objects. -/
abbrev ODict := List (String × JVal)

/-- The exceptions the program can raise, in structured form.  Python carries
formatted message strings; here each variant carries the data those messages
are built from. -/
inductive PyErr where
  /-- `CSVFormatException` from `_verify_key_row` (row does not have 2 cells). -/
  | csvFormatKeyRow (row : Row)
  /-- `CSVFormatException` from `_get_row_value` (malformed value row). -/
  | csvFormatValueRow (row : Row)
  /-- `CSVFormatException` from `_verify_values_number`
  (expected vs. actually read row counts). -/
  | csvFormatValuesNumber (expected : Int) (actual : Nat)
  /-- `CSVRecordVerificationFailure` from `__verify_scalar`. -/
  | csvVerifyScalarCount
  /-- `CSVRecordVerificationFailure` from `__verify_array` (length mismatch). -/
  | csvVerifyArrayLength (declared : Int) (actual : Nat)
  /-- `CSVRecordVerificationFailure` from `__verify_length_sign`
  (type marker is not a parseable integer). -/
  | csvVerifyTypeSign (typesig : String)
  /-- `CSVEndOfRowsException` (row iterator exhausted at a key-row read). -/
  | csvEndOfRows
  /-- Python built-in `ValueError`, carrying the offending string. -/
  | valueError (s : String)
  /-- `UnexpectedRecordValueException` from `from_pure_record`. -/
  | unexpectedRecordValue
  /-- Python built-in `IndexError` (indexing an empty sequence). -/
  | indexError
  /-- Python built-in `TypeError` (indexing / item assignment on a non-dict). -/
  | typeError
deriving DecidableEq, Repr

/-- Classifier: is the error a `CSVFormatException`? -/
def PyErr.isCSVFormat : PyErr → Bool
  | .csvFormatKeyRow _ => true
  | .csvFormatValueRow _ => true
  | .csvFormatValuesNumber _ _ => true
  | _ => false

/-- Classifier: is the error a `CSVRecordVerificationFailure`? -/
def PyErr.isVerificationFailure : PyErr → Bool
  | .csvVerifyScalarCount => true
  | .csvVerifyArrayLength _ _ => true
  | .csvVerifyTypeSign _ => true
  | _ => false

/-- `PureRecord = namedtuple('PureRecord', ('name_parts', 'value'))`.
The flattener only ever stores a string or an array here, but the field is
dynamically typed in Python, so it holds an arbitrary `JVal`. -/
structure PureRecord where
  name_parts : List String
  value : JVal

/- ### Decimal rendering and parsing of Python integers -/

/-- One decimal digit as a character (only called with digits `< 10`;
the final catch-all case is unreachable for such digits). -/
def digitChar : Nat → Char
  | 0 => '0' | 1 => '1' | 2 => '2' | 3 => '3' | 4 => '4'
  | 5 => '5' | 6 => '6' | 7 => '7' | 8 => '8' | 9 => '9'
  | _ => '?'

/-- Is the character a decimal digit? -/
def isDigitChar (c : Char) : Bool := '0' ≤ c && c ≤ '9'

/-- Numeric value of a digit character. -/
def digitVal (c : Char) : Nat := c.toNat - 48

/-- Python's `str(n)` for a natural number: standard decimal rendering. -/
def natToDecimalString (n : Nat) : String :=
  if n = 0 then "0" else ⟨((Nat.digits 10 n).reverse.map digitChar)⟩

/-- Python's `str(n)` for an integer. -/
def intToDecimalString : Int → String
  | Int.ofNat n => natToDecimalString n
  | Int.negSucc n => "-" ++ natToDecimalString (n + 1)

/-- Parse a nonempty all-digit character list as a natural number
(most significant digit first). -/
def parseDigits (cs : List Char) : Option Nat :=
  match cs with
  | [] => none
  | _ =>
    if cs.all isDigitChar then
      some (cs.foldl (fun a c => 10 * a + digitVal c) 0)
    else none

/-- Python's `int(s)` on a string: an optional leading minus sign followed by
decimal digits, `ValueError` otherwise.  (Surrounding whitespace, a leading
`+` and `_` digit separators, which Python would also accept, never occur in
the program's data and are not modelled.) -/
def pythonInt (s : String) : Except PyErr Int :=
  match s.data with
  | [] => .error (.valueError s)
  | c :: cs =>
    if c = '-' then
      match parseDigits cs with
      | some n => .ok (-(n : Int))
      | none => .error (.valueError s)
    else
      match parseDigits (c :: cs) with
      | some n => .ok (n : Int)
      | none => .error (.valueError s)

/- ### Name paths (`RecordNameParts`) -/

/-- Does the character list contain the separator `::` as a substring? -/
def containsSepB : List Char → Bool
  | [] => false
  | [_] => false
  | c1 :: c2 :: rest => (c1 = ':' && c2 = ':') || containsSepB (c2 :: rest)

/-- Is the last character a colon? -/
def lastIsColonB : List Char → Bool
  | [] => false
  | [c] => c == ':'
  | _ :: c :: rest => lastIsColonB (c :: rest)

/-- Split a character list on non-overlapping occurrences of `::`, scanning
left to right: the semantics of Python's `s.split("::")`.  Always returns at
least one (possibly empty) segment. -/
def splitSepL : List Char → List (List Char)
  | [] => [[]]
  | [c] => [[c]]
  | c1 :: c2 :: rest =>
    if c1 = ':' ∧ c2 = ':' then [] :: splitSepL rest
    else
      match splitSepL (c2 :: rest) with
      | s :: ss => (c1 :: s) :: ss
      | [] => [[c1]]

/-- Join character lists with the separator `::` between consecutive elements:
the semantics of Python's `"::".join(parts)`. -/
def joinSepL : List (List Char) → List Char
  | [] => []
  | [s] => s
  | s1 :: s2 :: rest => s1 ++ ':' :: ':' :: joinSepL (s2 :: rest)

namespace RecordNameParts

/-- `RecordNameParts.from_str`: `cls(name.split(cls.SEP))`. -/
def from_str (name : String) : List String :=
  (splitSepL name.data).map (fun cs => ⟨cs⟩)

/-- `RecordNameParts.__str__`: `self.SEP.join(self)`. -/
def render (parts : List String) : String :=
  ⟨joinSepL (parts.map String.data)⟩

end RecordNameParts

/- ### `CSVRecord` -/

/-- `CSVRecord = namedtuple('CSVRecord', ('type', 'key', 'values'))`.
When read from CSV the values are strings (`JVal.str` cells); when produced by
`from_pure_record` they are the raw record values. -/
structure CSVRecord where
  type : String
  key : String
  values : List JVal

namespace CSVRecord

/-- `get_number_of_values_for_type`:
`1 if typesig == cls.TYPE_SCALAR else int(typesig)`.  The `int()` call raises
`ValueError` on a non-numeric marker. -/
def get_number_of_values_for_type (typesig : String) : Except PyErr Int :=
  if typesig = "-" then .ok 1 else pythonInt typesig

/-- `from_pure_record`.  Python's `isinstance(value, str)` is checked first,
then `isinstance(value, Sequence)` (which `JVal.arr` satisfies); any other
value raises `UnexpectedRecordValueException`. -/
def from_pure_record (r : PureRecord) : Except PyErr CSVRecord :=
  match r.value with
  | JVal.str s => .ok ⟨"-", RecordNameParts.render r.name_parts, [JVal.str s]⟩
  | JVal.arr es =>
    .ok ⟨natToDecimalString es.length, RecordNameParts.render r.name_parts, es⟩
  | _ => .error .unexpectedRecordValue

/-- `to_pure_record`: scalar records take `values[0]` (an `IndexError` if the
value list is empty), array records take the whole value list. -/
def to_pure_record (c : CSVRecord) : Except PyErr PureRecord :=
  if c.type = "-" then
    match c.values with
    | [] => .error .indexError
    | v :: _ => .ok ⟨RecordNameParts.from_str c.key, v⟩
  else .ok ⟨RecordNameParts.from_str c.key, JVal.arr c.values⟩

/-- `verify`: scalar markers require exactly one value; other markers must
parse as an integer (`__verify_length_sign`, turning the `ValueError` into a
`CSVRecordVerificationFailure`) equal to the number of values. -/
def verify (c : CSVRecord) : Except PyErr Unit :=
  if c.type = "-" then
    if c.values.length ≠ 1 then .error .csvVerifyScalarCount else .ok ()
  else
    match pythonInt c.type with
    | .error _ => .error (.csvVerifyTypeSign c.type)
    | .ok n =>
      if (c.values.length : Int) ≠ n then
        .error (.csvVerifyArrayLength n c.values.length)
      else .ok ()

/-- The string the csv layer writes for a value cell.  Strings are written
as-is; Python's `str()` of other values is decimal / `True` / `False` /
`None`.  Nested lists or dicts inside an array would be rendered through
Python `repr`, which is outside the converter's data domain and is represented
by a fixed placeholder here. -/
def pyCellStr : JVal → String
  | JVal.str s => s
  | JVal.num n => intToDecimalString n
  | JVal.bool b => if b then "True" else "False"
  | JVal.null => "None"
  | JVal.arr _ => "<list>"
  | JVal.obj _ => "<dict>"

/-- `write_to_csv`: emit the key row `(type, key)` followed by one value row
`('', value)` per value, as the rows the csv writer receives. -/
def write_to_csv (c : CSVRecord) : List Row :=
  [c.type, c.key] :: c.values.map (fun v => ["", pyCellStr v])

end CSVRecord

/- ### `CSVRecordReader` -/

namespace CSVRecordReader

/-- `_verify_key_row`: a key row must have exactly 2 cells. -/
def verify_key_row (row : Row) : Except PyErr Unit :=
  if row.length ≠ 2 then .error (.csvFormatKeyRow row) else .ok ()

/-- `_get_row_value`: a value row needs at least `max 2 (col+1)` cells and an
empty cell 0; the value is the cell at the selected column. -/
def get_row_value (col : Nat) (row : Row) : Except PyErr String :=
  if row.length < max 2 (col + 1) || row.headD "" ≠ "" then
    .error (.csvFormatValueRow row)
  else .ok (row.getD col "")

/-- `_gen_values`: read up to `n` value rows from the input, stopping early
(without error) if the row iterator is exhausted.  Returns the values read
and the remaining rows. -/
def gen_values (col : Nat) : Nat → List Row → Except PyErr (List String × List Row)
  | n + 1, row :: rest =>
    (match get_row_value col row with
     | .error e => .error e
     | .ok v =>
       match gen_values col n rest with
       | .error e => .error e
       | .ok (vs, rem) => .ok (v :: vs, rem))
  | _, rows => .ok ([], rows)

/-- `_read_value_rows`: for a positive declared count, read the value rows and
check (`_verify_values_number`) that as many were read as declared; a
non-positive count reads nothing. -/
def read_value_rows (col : Nat) (number : Int) (rows : List Row) :
    Except PyErr (List String × List Row) :=
  if 0 < number then
    match gen_values col number.toNat rows with
    | .error e => .error e
    | .ok (vs, rem) =>
      if (vs.length : Int) = number then .ok (vs, rem)
      else .error (.csvFormatValuesNumber number vs.length)
  else .ok ([], rows)

/-- `read_one_record`: read a key row (end of input here raises
`CSVEndOfRowsException`), compute the declared number of value rows, read
them, construct the `CSVRecord` and `verify()` it.  Returns the record and
the remaining rows. -/
def read_one_record (col : Nat) (rows : List Row) :
    Except PyErr (CSVRecord × List Row) :=
  match rows with
  | [] => .error .csvEndOfRows
  | keyRow :: rest =>
    match verify_key_row keyRow with
    | .error e => .error e
    | .ok _ =>
      match CSVRecord.get_number_of_values_for_type (keyRow.getD 0 "") with
      | .error e => .error e
      | .ok n =>
        match read_value_rows col n rest with
        | .error e => .error e
        | .ok (cells, rem) =>
          let c : CSVRecord := ⟨keyRow.getD 0 "", keyRow.getD 1 "", cells.map JVal.str⟩
          match c.verify with
          | .error e => .error e
          | .ok _ => .ok (c, rem)

/-- Fuel-indexed loop of `read_all_records`; the fuel is only a termination
device (each successful `read_one_record` consumes at least the key row, so
`rows.length + 1` fuel always suffices, see `read_all_records_unfold`). -/
def read_all_aux (col : Nat) : Nat → List Row → Except PyErr (List CSVRecord)
  | 0, _ => .ok []
  | fuel + 1, rows =>
    match read_one_record col rows with
    | .error e => if e = .csvEndOfRows then .ok [] else .error e
    | .ok (c, rem) =>
      match read_all_aux col fuel rem with
      | .error e => .error e
      | .ok cs => .ok (c :: cs)

/-- `read_all_records`: repeatedly read records, stopping cleanly when a
`CSVEndOfRowsException` escapes `read_one_record`; any other exception
propagates. -/
def read_all_records (col : Nat) (rows : List Row) : Except PyErr (List CSVRecord) :=
  read_all_aux col (rows.length + 1) rows

end CSVRecordReader

/- ### Top-level conversions -/

/-- `skip_iter_items`: advance the row iterator `n` times with
`next(iterator, None)` — no error even when fewer rows remain. -/
def skip_iter_items : List Row → Nat → List Row
  | rows, 0 => rows
  | [], _ + 1 => []
  | _ :: rest, n + 1 => skip_iter_items rest n

/-- `read_records_from_csv`: skip the configured rows, construct the reader
(which validates `values_column >= 1` with a `ValueError`), read all records
and convert each to a pure record. -/
def read_records_from_csv (rows : List Row) (values_column : Nat)
    (skipped_rows : Nat) : Except PyErr (List PureRecord) :=
  let rows' := skip_iter_items rows skipped_rows
  if values_column < 1 then .error (.valueError "values_column")
  else
    match CSVRecordReader.read_all_records values_column rows' with
    | .error e => .error e
    | .ok cs => cs.mapM CSVRecord.to_pure_record

/-- `write_records_to_csv`: convert each pure record and write its rows, in
order. -/
def write_records_to_csv : List PureRecord → Except PyErr (List Row)
  | [] => .ok []
  | r :: rs =>
    match CSVRecord.from_pure_record r with
    | .error e => .error e
    | .ok c =>
      match write_records_to_csv rs with
      | .error e => .error e
      | .ok rest => .ok (c.write_to_csv ++ rest)

/-- `collect_records_from_json`: walk the object's fields in order; a value
that is a Python `Sequence` — which includes both `str` and `list` — becomes
a record at the extended name path, a mapping is recursed into, and any other
value is skipped. -/
def collect_records_from_json : List (String × JVal) → List String → List PureRecord
  | [], _ => []
  | (k, v) :: rest, parent =>
    (match v with
     | JVal.str s => [⟨parent ++ [k], JVal.str s⟩]
     | JVal.arr es => [⟨parent ++ [k], JVal.arr es⟩]
     | JVal.obj fields => collect_records_from_json fields (parent ++ [k])
     | _ => []) ++ collect_records_from_json rest parent

/- ### `OutputJSONDict` (the JSON builder) -/

/-- Ordered-dict lookup: the value at the first entry with the given key. -/
def od_lookup (d : ODict) (k : String) : Option JVal :=
  (d.find? (fun p => p.1 == k)).map (fun p => p.2)

/-- Ordered-dict assignment `d[k] = v`: replace the value in place if the key
exists, else append a new entry at the end (OrderedDict semantics). -/
def od_set : ODict → String → JVal → ODict
  | [], k, v => [(k, v)]
  | (k', v') :: rest, k, v =>
    if k' = k then (k', v) :: rest else (k', v') :: od_set rest k v

/-- The path walk of `include_record`: `__get_nested_dict` over all segments
but the last (auto-creating missing intermediate dicts via `__missing__`,
appended at the end), then assignment at the last segment.  An empty path
raises `IndexError` (`name_parts[-1]` on an empty tuple); descending into a
non-dict value raises `TypeError` (item access / assignment on a non-dict). -/
def include_go : ODict → List String → JVal → Except PyErr ODict
  | _, [], _ => .error .indexError
  | d, [k], v => .ok (od_set d k v)
  | d, k :: k2 :: rest, v =>
    match od_lookup d k with
    | some (JVal.obj sub) =>
      (include_go sub (k2 :: rest) v).map (fun sub' => od_set d k (JVal.obj sub'))
    | some _ => .error .typeError
    | none =>
      (include_go [] (k2 :: rest) v).map (fun sub' => d ++ [(k, JVal.obj sub')])

/-- `OutputJSONDict.include_record`. -/
def include_record (d : ODict) (r : PureRecord) : Except PyErr ODict :=
  include_go d r.name_parts r.value

/-- `write_records_to_json`, up to serialization: build the output dict by
including every record in order (the `json.dump` call is outside the model). -/
def write_records_to_json (records : List PureRecord) : Except PyErr ODict :=
  records.foldlM include_record []

/-- The JSON → tabular → JSON pipeline of the program: flatten, write the
rows, read them back selecting column 1 with no skipped rows, and rebuild. -/
def json_to_csv_to_json (fields : ODict) : Except PyErr ODict :=
  match write_records_to_csv (collect_records_from_json fields []) with
  | .error e => .error e
  | .ok rows =>
    match read_records_from_csv rows 1 0 with
    | .error e => .error e
    | .ok pures => write_records_to_json pures

/- ### Well-formedness of input JSON objects -/

/-- Is the value a plain string? -/
def is_str_val : JVal → Bool
  | JVal.str _ => true
  | _ => false

/-- Hypothesis predicate for round-trip statements over JSON objects.  At
every level keys are distinct (as in any Python dict) and contain no `::`
substring, leaf values are strings or arrays of strings, and nested objects
are nonempty (an empty nested object is a leaf that is neither a string nor
an array of strings).  With `strict = true` keys additionally must not end in
a `':'` character. -/
def wf_fields (strict : Bool) : List (String × JVal) → Bool
  | [] => true
  | (k, v) :: rest =>
    !(containsSepB k.data) &&
    (!strict || !(lastIsColonB k.data)) &&
    !(rest.any (fun p => p.1 == k)) &&
    (match v with
     | JVal.str _ => true
     | JVal.arr es => es.all is_str_val
     | JVal.obj fields => !fields.isEmpty && wf_fields strict fields
     | _ => false) &&
    wf_fields strict rest

/- ### Lemmas about decimal rendering and parsing -/

theorem digitVal_digitChar {d : Nat} (h : d < 10) : digitVal (digitChar d) = d := by
  interval_cases d <;> decide

theorem isDigitChar_digitChar {d : Nat} (h : d < 10) : isDigitChar (digitChar d) = true := by
  interval_cases d <;> decide

theorem digitChar_ne_dash {d : Nat} (h : d < 10) : digitChar d ≠ '-' := by
  interval_cases d <;> decide

theorem foldl_digits (L : List Nat) (h : ∀ d ∈ L, d < 10) (a : Nat) :
    (L.reverse.map digitChar).foldl (fun acc c => 10 * acc + digitVal c) a
      = a * 10 ^ L.length + Nat.ofDigits 10 L := by
  induction L generalizing a with
  | nil => simp
  | cons d L ih =>
    have hd : d < 10 := h d (by simp)
    have hL : ∀ x ∈ L, x < 10 := fun x hx => h x (by simp [hx])
    simp only [List.reverse_cons, List.map_append, List.map_cons, List.map_nil,
      List.foldl_append, List.foldl_cons, List.foldl_nil, ih hL a,
      digitVal_digitChar hd, Nat.ofDigits_cons, List.length_cons]
    ring

theorem parseDigits_of_all (cs : List Char) (h1 : cs ≠ [])
    (h2 : cs.all isDigitChar = true) :
    parseDigits cs = some (cs.foldl (fun a c => 10 * a + digitVal c) 0) := by
  cases cs with
  | nil => exact absurd rfl h1
  | cons c cs' =>
    rw [parseDigits, if_pos h2]
    simp

theorem parseDigits_digits (n : Nat) (hn : n ≠ 0) :
    parseDigits ((Nat.digits 10 n).reverse.map digitChar) = some n := by
  have hne : Nat.digits 10 n ≠ [] := Nat.digits_ne_nil_iff_ne_zero.mpr hn
  have hlt : ∀ d ∈ Nat.digits 10 n, d < 10 := fun d hd =>
    Nat.digits_lt_base (by norm_num) hd
  have hall : ((Nat.digits 10 n).reverse.map digitChar).all isDigitChar = true := by
    rw [List.all_eq_true]
    intro c hc
    rw [List.mem_map] at hc
    obtain ⟨d, hd, rfl⟩ := hc
    exact isDigitChar_digitChar (hlt d (List.mem_reverse.mp hd))
  have hnil : (Nat.digits 10 n).reverse.map digitChar ≠ [] := by
    simp [hne]
  rw [parseDigits_of_all _ hnil hall, foldl_digits _ hlt, Nat.ofDigits_digits]
  simp

theorem natToDecimalString_data (n : Nat) (hn : n ≠ 0) :
    (natToDecimalString n).data = (Nat.digits 10 n).reverse.map digitChar := by
  rw [natToDecimalString, if_neg hn]

theorem pythonInt_natToDecimalString (n : Nat) :
    pythonInt (natToDecimalString n) = .ok (n : Int) := by
  by_cases hn : n = 0
  · subst hn; rfl
  · have hne : Nat.digits 10 n ≠ [] := Nat.digits_ne_nil_iff_ne_zero.mpr hn
    have hlt : ∀ d ∈ Nat.digits 10 n, d < 10 := fun d hd =>
      Nat.digits_lt_base (by norm_num) hd
    rcases hcs : (Nat.digits 10 n).reverse.map digitChar with _ | ⟨c, cs⟩
    · simp at hcs
      exact absurd hcs hne
    · have hc : c ≠ '-' := by
        have : c ∈ (Nat.digits 10 n).reverse.map digitChar := by
          rw [hcs]; simp
        rw [List.mem_map] at this
        obtain ⟨d, hd, rfl⟩ := this
        exact digitChar_ne_dash (hlt d (List.mem_reverse.mp hd))
      simp only [pythonInt, natToDecimalString_data n hn, hcs]
      rw [if_neg hc, ← hcs, parseDigits_digits n hn]

theorem natToDecimalString_ne_dash (n : Nat) : natToDecimalString n ≠ "-" := by
  intro h
  have := pythonInt_natToDecimalString n
  rw [h] at this
  simp [pythonInt, parseDigits] at this

/-- `get_number_of_values_for_type` on the marker written for an array of
length `n` parses back to `n`. -/
theorem get_number_natToDecimalString (n : Nat) :
    CSVRecord.get_number_of_values_for_type (natToDecimalString n) = .ok (n : Int) := by
  rw [CSVRecord.get_number_of_values_for_type, if_neg (natToDecimalString_ne_dash n),
    pythonInt_natToDecimalString]

/- ### Lemmas about splitting and joining name paths -/

theorem splitSepL_ne_nil (cs : List Char) : splitSepL cs ≠ [] := by
  match cs with
  | [] => simp [splitSepL]
  | [c] => simp [splitSepL]
  | c1 :: c2 :: rest =>
    rw [splitSepL]
    split
    · simp
    · split <;> simp

theorem splitSepL_no_sep : ∀ cs : List Char, containsSepB cs = false → splitSepL cs = [cs]
  | [], _ => rfl
  | [c], _ => rfl
  | c1 :: c2 :: rest, h => by
    rw [containsSepB] at h
    simp only [Bool.or_eq_false_iff, Bool.and_eq_false_iff,
      decide_eq_false_iff_not] at h
    obtain ⟨hne, hrest⟩ := h
    have hcond : ¬(c1 = ':' ∧ c2 = ':') := by
      rcases hne with h1 | h2
      · exact fun hc => h1 hc.1
      · exact fun hc => h2 hc.2
    rw [splitSepL, if_neg hcond, splitSepL_no_sep (c2 :: rest) hrest]

theorem splitSepL_append_sep :
    ∀ s t : List Char, containsSepB s = false → lastIsColonB s = false →
      splitSepL (s ++ ':' :: ':' :: t) = s :: splitSepL t
  | [], t, _, _ => by
    rw [List.nil_append, splitSepL, if_pos ⟨rfl, rfl⟩]
  | [c], t, _, h2 => by
    have hc : c ≠ ':' := by
      rw [lastIsColonB] at h2
      simpa using h2
    have : ([c] ++ ':' :: ':' :: t) = c :: ':' :: ':' :: t := rfl
    rw [this, splitSepL, if_neg (fun hx => hc hx.1),
      splitSepL, if_pos ⟨rfl, rfl⟩]
  | c1 :: c2 :: s', t, h1, h2 => by
    rw [containsSepB] at h1
    simp only [Bool.or_eq_false_iff, Bool.and_eq_false_iff,
      decide_eq_false_iff_not] at h1
    obtain ⟨hne, hrest⟩ := h1
    have hcond : ¬(c1 = ':' ∧ c2 = ':') := by
      rcases hne with h | h
      · exact fun hc => h hc.1
      · exact fun hc => h hc.2
    have hlast : lastIsColonB (c2 :: s') = false := by
      rw [lastIsColonB] at h2
      exact h2
    have heq : (c1 :: c2 :: s') ++ ':' :: ':' :: t
        = c1 :: c2 :: (s' ++ ':' :: ':' :: t) := rfl
    have heq2 : c2 :: (s' ++ ':' :: ':' :: t) = (c2 :: s') ++ ':' :: ':' :: t := rfl
    rw [heq, splitSepL, if_neg hcond, heq2,
      splitSepL_append_sep (c2 :: s') t hrest hlast]

/-- `from_str` never produces an empty path: splitting any string yields at
least one (possibly empty) segment. -/
theorem from_str_ne_nil (s : String) : RecordNameParts.from_str s ≠ [] := by
  rw [RecordNameParts.from_str]
  intro h
  exact splitSepL_ne_nil s.data (List.map_eq_nil_iff.mp h)

/-- The join/split round trip for name paths: parsing the rendered form gives
back the original parts, provided the path is nonempty, no segment contains
`::`, and no segment before the last ends in `':'`. -/
theorem from_str_render :
    ∀ parts : List String, parts ≠ [] →
      (∀ p ∈ parts, containsSepB p.data = false) →
      (∀ p ∈ parts.dropLast, lastIsColonB p.data = false) →
      RecordNameParts.from_str (RecordNameParts.render parts) = parts
  | [], h, _, _ => absurd rfl h
  | [p], _, hsep, _ => by
    rw [RecordNameParts.render, RecordNameParts.from_str]
    have h1 : (String.mk (joinSepL ([p].map String.data))).data = p.data := rfl
    rw [h1, splitSepL_no_sep p.data (hsep p (by simp))]
    rfl
  | p :: p2 :: rest, _, hsep, hcolon => by
    have hrec : RecordNameParts.from_str (RecordNameParts.render (p2 :: rest))
        = p2 :: rest :=
      from_str_render (p2 :: rest) (by simp)
        (fun q hq => hsep q (by simp [hq]))
        (fun q hq => hcolon q (by
          rcases rest with _ | ⟨r, rs⟩
          · simp at hq
          · simpa using Or.inr hq))
    rw [RecordNameParts.render, RecordNameParts.from_str]
    have h1 : (String.mk (joinSepL ((p :: p2 :: rest).map String.data))).data
        = p.data ++ ':' :: ':' :: joinSepL ((p2 :: rest).map String.data) := rfl
    rw [h1, splitSepL_append_sep p.data _ (hsep p (by simp))
      (hcolon p (by simp))]
    have h2 : RecordNameParts.from_str (RecordNameParts.render (p2 :: rest))
        = (splitSepL (joinSepL ((p2 :: rest).map String.data))).map
            (fun cs => String.mk cs) := rfl
    rw [List.map_cons, ← h2, hrec]

/- ### Reader lemmas: row consumption, error shapes, loop unfolding -/

namespace CSVRecordReader

theorem gen_values_zero (col : Nat) (rows : List Row) :
    gen_values col 0 rows = .ok ([], rows) := rfl

theorem gen_values_nil (col n : Nat) :
    gen_values col (n + 1) [] = .ok ([], []) := rfl

theorem gen_values_cons (col n : Nat) (row : Row) (rest : List Row) :
    gen_values col (n + 1) (row :: rest)
      = (match get_row_value col row with
         | .error e => .error e
         | .ok v =>
           match gen_values col n rest with
           | .error e => .error e
           | .ok (vs, rem) => .ok (v :: vs, rem)) := rfl

theorem gen_values_ok_le (col : Nat) :
    ∀ (n : Nat) (rows : List Row) (vs : List String) (rem : List Row),
      gen_values col n rows = .ok (vs, rem) → rem.length ≤ rows.length := by
  intro n
  induction n with
  | zero =>
    intro rows vs rem h
    rw [gen_values_zero] at h
    cases h
    exact le_refl _
  | succ n ih =>
    intro rows vs rem h
    cases rows with
    | nil =>
      rw [gen_values_nil] at h
      cases h
      exact le_refl _
    | cons row rest =>
      rw [gen_values_cons] at h
      split at h
      · exact absurd h (by simp)
      · split at h
        · exact absurd h (by simp)
        · next v vs' rem' heq =>
          cases h
          exact le_trans (ih rest vs' rem heq) (by simp)

theorem read_value_rows_ok_le (col : Nat) (number : Int) (rows : List Row)
    (vs : List String) (rem : List Row)
    (h : read_value_rows col number rows = .ok (vs, rem)) :
    rem.length ≤ rows.length := by
  rw [read_value_rows] at h
  split at h
  · split at h
    · exact absurd h (by simp)
    · next vs' rem' heq =>
      split at h
      · cases h
        exact gen_values_ok_le col _ rows vs rem heq
      · exact absurd h (by simp)
  · cases h
    exact le_refl _

theorem read_one_record_ok_lt (col : Nat) (rows : List Row) (c : CSVRecord)
    (rem : List Row) (h : read_one_record col rows = .ok (c, rem)) :
    rem.length < rows.length := by
  cases rows with
  | nil => exact absurd h (by simp [read_one_record])
  | cons keyRow rest =>
    rw [read_one_record] at h
    split at h
    · exact absurd h (by simp)
    · split at h
      · exact absurd h (by simp)
      · split at h
        · exact absurd h (by simp)
        · next cells rem' heq =>
          simp only [] at h
          split at h
          · exact absurd h (by simp)
          · cases h
            exact Nat.lt_succ_of_le (read_value_rows_ok_le col _ rest cells rem heq)

theorem read_all_aux_fuel_eq (col : Nat) :
    ∀ (f1 : Nat) (f2 : Nat) (rows : List Row), rows.length < f1 → rows.length < f2 →
      read_all_aux col f1 rows = read_all_aux col f2 rows := by
  intro f1
  induction f1 with
  | zero => intro f2 rows h1; exact absurd h1 (by omega)
  | succ f1 ih =>
    intro f2 rows h1 h2
    cases f2 with
    | zero => exact absurd h2 (by omega)
    | succ f2 =>
      rw [read_all_aux, read_all_aux]
      cases hone : read_one_record col rows with
      | error e => rfl
      | ok pr =>
        obtain ⟨c, rem⟩ := pr
        have hlt := read_one_record_ok_lt col rows c rem hone
        have heq := ih f2 rem (by omega) (by omega)
        simp only [heq]

/-- The loop equation of `read_all_records`: read one record; a
`CSVEndOfRowsException` stops cleanly with `[]`, another error propagates, and
a successfully read record is consed onto the records of the remaining rows. -/
theorem read_all_records_unfold (col : Nat) (rows : List Row) :
    read_all_records col rows
      = (match read_one_record col rows with
         | .error e => if e = .csvEndOfRows then .ok [] else .error e
         | .ok (c, rem) =>
           match read_all_records col rem with
           | .error e => .error e
           | .ok cs => .ok (c :: cs)) := by
  rw [read_all_records, read_all_aux]
  cases hone : read_one_record col rows with
  | error e => rfl
  | ok pr =>
    obtain ⟨c, rem⟩ := pr
    have hlt := read_one_record_ok_lt col rows c rem hone
    have heq := read_all_aux_fuel_eq col rows.length (rem.length + 1) rem
      (by omega) (by omega)
    simp only [read_all_records, heq]

theorem verify_key_row_error (row : Row) (e : PyErr)
    (h : verify_key_row row = .error e) : e = .csvFormatKeyRow row := by
  rw [verify_key_row] at h
  split at h
  · cases h; rfl
  · exact absurd h (by simp)

theorem pythonInt_error (s : String) (e : PyErr) (h : pythonInt s = .error e) :
    e = .valueError s := by
  rw [pythonInt] at h
  split at h
  · cases h; rfl
  · split at h
    · split at h
      · exact absurd h (by simp)
      · cases h; rfl
    · split at h
      · exact absurd h (by simp)
      · cases h; rfl

theorem get_number_error (t : String) (e : PyErr)
    (h : CSVRecord.get_number_of_values_for_type t = .error e) : e = .valueError t := by
  rw [CSVRecord.get_number_of_values_for_type] at h
  split at h
  · exact absurd h (by simp)
  · exact pythonInt_error t e h

theorem get_row_value_error (col : Nat) (row : Row) (e : PyErr)
    (h : get_row_value col row = .error e) : e = .csvFormatValueRow row := by
  rw [get_row_value] at h
  split at h
  · cases h; rfl
  · exact absurd h (by simp)

theorem gen_values_error (col : Nat) :
    ∀ (n : Nat) (rows : List Row) (e : PyErr), gen_values col n rows = .error e →
      ∃ r, e = .csvFormatValueRow r := by
  intro n
  induction n with
  | zero =>
    intro rows e h
    rw [gen_values_zero] at h
    exact absurd h (by simp)
  | succ n ih =>
    intro rows e h
    cases rows with
    | nil =>
      rw [gen_values_nil] at h
      exact absurd h (by simp)
    | cons row rest =>
      rw [gen_values_cons] at h
      split at h
      · next e' heq =>
        cases h
        exact ⟨row, get_row_value_error col row _ heq⟩
      · split at h
        · next e' heq =>
          cases h
          exact ih rest _ heq
        · exact absurd h (by simp)

theorem read_value_rows_error (col : Nat) (number : Int) (rows : List Row) (e : PyErr)
    (h : read_value_rows col number rows = .error e) :
    (∃ r, e = .csvFormatValueRow r) ∨ ∃ k m, e = .csvFormatValuesNumber k m := by
  rw [read_value_rows] at h
  split at h
  · split at h
    · next e' heq =>
      cases h
      exact Or.inl (gen_values_error col _ rows _ heq)
    · split at h
      · exact absurd h (by simp)
      · cases h
        exact Or.inr ⟨number, _, rfl⟩
  · exact absurd h (by simp)

theorem verify_error (c : CSVRecord) (e : PyErr) (h : c.verify = .error e) :
    e.isVerificationFailure = true := by
  rw [CSVRecord.verify] at h
  split at h
  · split at h
    · cases h; rfl
    · exact absurd h (by simp)
  · split at h
    · cases h; rfl
    · split at h
      · cases h; rfl
      · exact absurd h (by simp)

/-- The clean-stop signal arises exactly at a record boundary: a
`read_one_record` call surfaces `CSVEndOfRowsException` if and only if the
input has no rows at all (the first row of the attempted key-row read is
absent). -/
theorem read_one_record_eor_iff (col : Nat) (rows : List Row) :
    read_one_record col rows = .error .csvEndOfRows ↔ rows = [] := by
  constructor
  · intro h
    cases rows with
    | nil => rfl
    | cons keyRow rest =>
      exfalso
      rw [read_one_record] at h
      split at h
      · next e heq =>
        cases h
        have := verify_key_row_error keyRow _ heq
        simp at this
      · split at h
        · next e heq =>
          cases h
          have := get_number_error _ _ heq
          simp at this
        · split at h
          · next e heq =>
            cases h
            rcases read_value_rows_error col _ rest _ heq with ⟨r, hr⟩ | ⟨k, m, hr⟩ <;>
              simp at hr
          · next cells rem heq =>
            simp only [] at h
            split at h
            · next e heq2 =>
              cases h
              have := verify_error _ _ heq2
              simp [PyErr.isVerificationFailure] at this
            · exact absurd h (by simp)
  · intro h
    subst h
    rfl

end CSVRecordReader

/- ### Round trip of a record through the tabular writer and reader -/

/-- A name path that survives the `::` join/split round trip: nonempty, no
segment contains `::`, and no segment before the last ends in `':'`. -/
def good_path (parts : List String) : Prop :=
  parts ≠ [] ∧ (∀ p ∈ parts, containsSepB p.data = false) ∧
    ∀ p ∈ parts.dropLast, lastIsColonB p.data = false

/-- A record value in the format's documented domain: a scalar string or an
array of strings. -/
def good_value (v : JVal) : Prop :=
  (∃ s, v = JVal.str s) ∨ ∃ es, v = JVal.arr es ∧ ∀ e ∈ es, ∃ s, e = JVal.str s

/-- A pure record whose round trip through the tabular format is lossless. -/
def good_record (r : PureRecord) : Prop :=
  good_path r.name_parts ∧ good_value r.value

theorem map_str_pyCellStr (es : List JVal) (h : ∀ e ∈ es, ∃ s, e = JVal.str s) :
    (es.map CSVRecord.pyCellStr).map JVal.str = es := by
  induction es with
  | nil => rfl
  | cons e es ih =>
    obtain ⟨s, rfl⟩ := h e (by simp)
    simp only [List.map_cons, CSVRecord.pyCellStr, List.cons.injEq, true_and]
    exact ih fun e he => h e (by simp [he])

theorem get_row_value_written (s : String) :
    CSVRecordReader.get_row_value 1 ["", s] = .ok s := rfl

theorem gen_values_written (cells : List String) (more : List Row) :
    CSVRecordReader.gen_values 1 cells.length
      ((cells.map fun s => ["", s]) ++ more) = .ok (cells, more) := by
  induction cells with
  | nil => rfl
  | cons s cells ih =>
    rw [List.length_cons, List.map_cons, List.cons_append,
      CSVRecordReader.gen_values_cons, get_row_value_written, ih]

theorem read_value_rows_written (cells : List String) (more : List Row) :
    CSVRecordReader.read_value_rows 1 (cells.length : Int)
      ((cells.map fun s => ["", s]) ++ more) = .ok (cells, more) := by
  rw [CSVRecordReader.read_value_rows]
  cases cells with
  | nil => rfl
  | cons s cells =>
    rw [if_pos (by exact_mod_cast Nat.succ_pos cells.length)]
    have htn : ((s :: cells).length : Int).toNat = (s :: cells).length := by
      simp
    rw [htn, gen_values_written (s :: cells) more]
    simp

/-- Reading back one written scalar record consumes exactly its rows and
returns it unchanged. -/
theorem read_one_written_scalar (key s : String) (more : List Row) :
    CSVRecordReader.read_one_record 1
        (CSVRecord.write_to_csv ⟨"-", key, [JVal.str s]⟩ ++ more)
      = .ok (⟨"-", key, [JVal.str s]⟩, more) := rfl

/-- Reading back one written array record (of string elements) consumes
exactly its rows and returns it unchanged. -/
theorem read_one_written_arr (key : String) (es : List JVal)
    (h : ∀ e ∈ es, ∃ s, e = JVal.str s) (more : List Row) :
    CSVRecordReader.read_one_record 1
        (CSVRecord.write_to_csv ⟨natToDecimalString es.length, key, es⟩ ++ more)
      = .ok (⟨natToDecimalString es.length, key, es⟩, more) := by
  have hrows : CSVRecord.write_to_csv ⟨natToDecimalString es.length, key, es⟩ ++ more
      = [natToDecimalString es.length, key]
        :: (((es.map CSVRecord.pyCellStr).map fun s => ["", s]) ++ more) := by
    rw [CSVRecord.write_to_csv]
    simp [List.map_map]
  have hkeyrow : CSVRecordReader.verify_key_row [natToDecimalString es.length, key]
      = .ok () := rfl
  have hgetd0 : ([natToDecimalString es.length, key] : Row).getD 0 ""
      = natToDecimalString es.length := rfl
  have hgetd1 : ([natToDecimalString es.length, key] : Row).getD 1 "" = key := rfl
  have hlen : (es.map CSVRecord.pyCellStr).length = es.length := by simp
  have hread := read_value_rows_written (es.map CSVRecord.pyCellStr) more
  rw [hlen] at hread
  have hverify : CSVRecord.verify ⟨natToDecimalString es.length, key, es⟩ = .ok () := by
    rw [CSVRecord.verify, if_neg (natToDecimalString_ne_dash es.length),
      pythonInt_natToDecimalString]
    simp
  rw [hrows, CSVRecordReader.read_one_record]
  simp only [hkeyrow, hgetd0, hgetd1, get_number_natToDecimalString, hread,
    map_str_pyCellStr es h, hverify]

theorem to_pure_written_scalar (parts : List String) (s : String)
    (hp : good_path parts) :
    CSVRecord.to_pure_record ⟨"-", RecordNameParts.render parts, [JVal.str s]⟩
      = .ok ⟨parts, JVal.str s⟩ := by
  obtain ⟨h1, h2, h3⟩ := hp
  have hred : CSVRecord.to_pure_record ⟨"-", RecordNameParts.render parts, [JVal.str s]⟩
      = .ok ⟨RecordNameParts.from_str (RecordNameParts.render parts), JVal.str s⟩ := rfl
  rw [hred, from_str_render parts h1 h2 h3]

theorem to_pure_written_arr (parts : List String) (es : List JVal)
    (hp : good_path parts) :
    CSVRecord.to_pure_record
        ⟨natToDecimalString es.length, RecordNameParts.render parts, es⟩
      = .ok ⟨parts, JVal.arr es⟩ := by
  obtain ⟨h1, h2, h3⟩ := hp
  rw [CSVRecord.to_pure_record]
  simp only [if_neg (natToDecimalString_ne_dash es.length)]
  rw [from_str_render parts h1 h2 h3]

/-- Writing a list of good records and reading the rows back (with any extra
rows appended) recovers exactly the written records before the extras. -/
theorem write_read_records :
    ∀ rs : List PureRecord, (∀ r ∈ rs, good_record r) →
      ∃ rows crecs,
        write_records_to_csv rs = .ok rows ∧
        (∀ more, CSVRecordReader.read_all_records 1 (rows ++ more)
            = (CSVRecordReader.read_all_records 1 more).map fun tl => crecs ++ tl) ∧
        crecs.mapM CSVRecord.to_pure_record = .ok rs := by
  intro rs
  induction rs with
  | nil =>
    intro _
    refine ⟨[], [], rfl, fun more => ?_, rfl⟩
    cases hm : CSVRecordReader.read_all_records 1 more <;> simp [hm, Except.map]
  | cons r rs ih =>
    intro hgood
    obtain ⟨rows', crecs', hw', hr', hm'⟩ := ih fun x hx => hgood x (by simp [hx])
    obtain ⟨⟨hp1, hp2, hp3⟩, hv⟩ := hgood r (by simp)
    obtain ⟨parts, value⟩ := r
    rcases hv with ⟨s, rfl⟩ | ⟨es, rfl, hes⟩
    · refine ⟨CSVRecord.write_to_csv ⟨"-", RecordNameParts.render parts, [JVal.str s]⟩
        ++ rows', ⟨"-", RecordNameParts.render parts, [JVal.str s]⟩ :: crecs',
        ?_, fun more => ?_, ?_⟩
      · rw [write_records_to_csv]
        have hfp : CSVRecord.from_pure_record ⟨parts, JVal.str s⟩
            = .ok ⟨"-", RecordNameParts.render parts, [JVal.str s]⟩ := rfl
        rw [hfp, hw']
      · rw [List.append_assoc, CSVRecordReader.read_all_records_unfold]
        simp only [read_one_written_scalar (RecordNameParts.render parts) s
          (rows' ++ more), hr' more]
        cases hm : CSVRecordReader.read_all_records 1 more <;> simp [hm, Except.map]
      · rw [List.mapM_cons,
          to_pure_written_scalar parts s ⟨hp1, hp2, hp3⟩, hm']
        rfl
    · refine ⟨CSVRecord.write_to_csv
          ⟨natToDecimalString es.length, RecordNameParts.render parts, es⟩ ++ rows',
        ⟨natToDecimalString es.length, RecordNameParts.render parts, es⟩ :: crecs',
        ?_, fun more => ?_, ?_⟩
      · rw [write_records_to_csv]
        have hfp : CSVRecord.from_pure_record ⟨parts, JVal.arr es⟩
            = .ok ⟨natToDecimalString es.length, RecordNameParts.render parts, es⟩ :=
          rfl
        rw [hfp, hw']
      · rw [List.append_assoc, CSVRecordReader.read_all_records_unfold]
        simp only [read_one_written_arr (RecordNameParts.render parts) es hes
          (rows' ++ more), hr' more]
        cases hm : CSVRecordReader.read_all_records 1 more <;> simp [hm, Except.map]
      · rw [List.mapM_cons,
          to_pure_written_arr parts es ⟨hp1, hp2, hp3⟩, hm']
        rfl

/-- Writing good records to rows and then running `read_records_from_csv` on
those rows (column 1, no skipped rows) returns exactly the written records. -/
theorem read_records_write_records (rs : List PureRecord)
    (h : ∀ r ∈ rs, good_record r) :
    ∃ rows, write_records_to_csv rs = .ok rows ∧
      read_records_from_csv rows 1 0 = .ok rs := by
  obtain ⟨rows, crecs, hw, hr, hm⟩ := write_read_records rs h
  refine ⟨rows, hw, ?_⟩
  have hall : CSVRecordReader.read_all_records 1 rows = .ok crecs := by
    have hnil : CSVRecordReader.read_all_records 1 [] = .ok [] := rfl
    have := hr []
    rw [List.append_nil, hnil] at this
    rw [this]
    simp [Except.map]
  rw [read_records_from_csv]
  simp only [skip_iter_items, if_neg (by omega : ¬(1 : Nat) < 1), hall, hm]

/- ### Ordered-dict and builder lemmas -/

theorem od_lookup_cons (k' : String) (v' : JVal) (rest : ODict) (k : String) :
    od_lookup ((k', v') :: rest) k = if k' = k then some v' else od_lookup rest k := by
  by_cases hk : k' = k
  · rw [od_lookup, List.find?_cons_of_pos _ (by simpa using hk), if_pos hk]
    rfl
  · rw [od_lookup, List.find?_cons_of_neg _ (by simpa using hk), if_neg hk]
    rfl

theorem od_lookup_set_self (d : ODict) (k : String) (v : JVal) :
    od_lookup (od_set d k v) k = some v := by
  induction d with
  | nil => simp [od_set, od_lookup_cons]
  | cons p rest ih =>
    obtain ⟨k', v'⟩ := p
    by_cases hk : k' = k
    · subst hk
      simp [od_set, od_lookup_cons]
    · simp [od_set, od_lookup_cons, hk, ih]

theorem od_set_set (d : ODict) (k : String) (v w : JVal) :
    od_set (od_set d k v) k w = od_set d k w := by
  induction d with
  | nil => simp [od_set]
  | cons p rest ih =>
    obtain ⟨k', v'⟩ := p
    by_cases hk : k' = k
    · subst hk
      simp [od_set]
    · simp [od_set, hk, ih]

theorem od_set_of_lookup (d : ODict) (k : String) (v : JVal)
    (h : od_lookup d k = some v) : od_set d k v = d := by
  induction d with
  | nil => simp [od_lookup] at h
  | cons p rest ih =>
    obtain ⟨k', v'⟩ := p
    by_cases hk : k' = k
    · subst hk
      rw [od_lookup_cons, if_pos rfl] at h
      cases h
      simp [od_set]
    · rw [od_lookup_cons, if_neg hk] at h
      simp [od_set, hk, ih h]

theorem od_lookup_append (d e : ODict) (k : String) (h : ∀ p ∈ d, p.1 ≠ k) :
    od_lookup (d ++ e) k = od_lookup e k := by
  induction d with
  | nil => rfl
  | cons p rest ih =>
    obtain ⟨k', v'⟩ := p
    have hk : k' ≠ k := h (k', v') (by simp)
    rw [List.cons_append, od_lookup_cons, if_neg hk]
    exact ih fun q hq => h q (by simp [hq])

theorem od_set_append (d e : ODict) (k : String) (v : JVal)
    (h : ∀ p ∈ d, p.1 ≠ k) :
    od_set (d ++ e) k v = d ++ od_set e k v := by
  induction d with
  | nil => rfl
  | cons p rest ih =>
    obtain ⟨k', v'⟩ := p
    have hk : k' ≠ k := h (k', v') (by simp)
    simp only [List.cons_append, od_set, if_neg hk, List.append_eq]
    rw [ih fun q hq => h q (by simp [hq])]

/-- Nonempty paths never trip the `IndexError` branch of the builder. -/
theorem include_go_ne_indexError :
    ∀ (parts : List String) (d : ODict) (v : JVal), parts ≠ [] →
      include_go d parts v ≠ .error .indexError
  | [], _, _, h, _ => absurd rfl h
  | [k], d, v, _, hcontra => by
    rw [include_go] at hcontra
    exact absurd hcontra (by simp)
  | k :: k2 :: rest, d, v, _, hcontra => by
    rw [include_go] at hcontra
    split at hcontra
    · next sub _ =>
      cases hrec : include_go sub (k2 :: rest) v with
      | error e =>
        rw [hrec] at hcontra
        simp [Except.map] at hcontra
        exact include_go_ne_indexError (k2 :: rest) sub v (by simp)
          (by rw [hrec, hcontra])
      | ok s => rw [hrec] at hcontra; exact absurd hcontra (by simp [Except.map])
    · exact absurd hcontra (by simp)
    · cases hrec : include_go [] (k2 :: rest) v with
      | error e =>
        rw [hrec] at hcontra
        simp [Except.map] at hcontra
        exact include_go_ne_indexError (k2 :: rest) [] v (by simp)
          (by rw [hrec, hcontra])
      | ok s => rw [hrec] at hcontra; exact absurd hcontra (by simp [Except.map])

/-- Lifting the builder over a prefix dict whose keys are untouched by the
record's head segment: new entries land after `d` and `d` is unchanged. -/
theorem include_go_append_disjoint (k : String) (p : List String) (d e : ODict)
    (v : JVal) (hd : ∀ q ∈ d, q.1 ≠ k) :
    include_go (d ++ e) (k :: p) v = (include_go e (k :: p) v).map fun e' => d ++ e' := by
  cases p with
  | nil =>
    rw [include_go, include_go, od_set_append d e k v hd]
    rfl
  | cons k2 rest =>
    rw [include_go, include_go, od_lookup_append d e k hd]
    cases hl : od_lookup e k with
    | none =>
      cases hrec : include_go [] (k2 :: rest) v <;>
        simp [Except.map, List.append_assoc]
    | some w =>
      cases w with
      | obj sub =>
        cases hrec : include_go sub (k2 :: rest) v <;>
          simp [hrec, Except.map, od_set_append d e k _ hd]
      | str s => simp [Except.map]
      | num n => simp [Except.map]
      | bool b => simp [Except.map]
      | null => simp [Except.map]
      | arr es => simp [Except.map]

theorem except_bind_error {α β : Type} (e : PyErr) (f : α → Except PyErr β) :
    (Except.error e : Except PyErr α) >>= f = Except.error e := rfl

theorem except_bind_ok {α β : Type} (a : α) (f : α → Except PyErr β) :
    (Except.ok a : Except PyErr α) >>= f = f a := rfl

theorem except_map_error {α β : Type} (e : PyErr) (f : α → β) :
    Except.map f (Except.error e : Except PyErr α) = Except.error e := rfl

theorem except_map_ok {α β : Type} (a : α) (f : α → β) :
    Except.map f (Except.ok a : Except PyErr α) = Except.ok (f a) := rfl

theorem except_pure {α : Type} (a : α) : (pure a : Except PyErr α) = Except.ok a := rfl

/-- Folding the builder over records whose head segments avoid all keys of a
prefix dict `d` leaves `d` unchanged in front. -/
theorem include_all_append_disjoint :
    ∀ (rs : List PureRecord) (d e : ODict),
      (∀ r ∈ rs, ∃ k p, r.name_parts = k :: p ∧ ∀ q ∈ d, q.1 ≠ k) →
      rs.foldlM include_record (d ++ e)
        = (rs.foldlM include_record e).map fun e' => d ++ e' := by
  intro rs
  induction rs with
  | nil =>
    intro d e _
    simp only [List.foldlM_nil, except_pure, except_map_ok]
  | cons r rs ih =>
    intro d e h
    obtain ⟨k, p, hparts, hdisj⟩ := h r (by simp)
    rw [List.foldlM_cons, List.foldlM_cons]
    have hstep : include_record (d ++ e) r = (include_record e r).map fun e' => d ++ e' := by
      rw [include_record, include_record, hparts]
      exact include_go_append_disjoint k p d e r.value hdisj
    rw [hstep]
    cases he : include_record e r with
    | error err => simp only [he, except_map_error, except_bind_error]
    | ok e2 =>
      simp only [he, except_map_ok, except_bind_ok]
      exact ih d e2 fun r' hr' => by
        obtain ⟨k', p', hp', hd'⟩ := h r' (by simp [hr'])
        exact ⟨k', p', hp', hd'⟩

/-- Folding the builder over records all prefixed with segment `k`, when `k`
already maps to a nested dict `sub`: equivalent to building the suffix records
into `sub` and storing the result back at `k`. -/
theorem include_all_prepend_existing :
    ∀ (rs : List PureRecord) (d : ODict) (k : String) (sub : ODict),
      od_lookup d k = some (JVal.obj sub) →
      (∀ r ∈ rs, r.name_parts ≠ []) →
      (rs.map fun r => PureRecord.mk (k :: r.name_parts) r.value).foldlM
          include_record d
        = (rs.foldlM include_record sub).map fun sub' => od_set d k (JVal.obj sub') := by
  intro rs
  induction rs with
  | nil =>
    intro d k sub hl _
    simp only [List.map_nil, List.foldlM_nil, except_pure, except_map_ok,
      od_set_of_lookup d k _ hl]
  | cons r rs ih =>
    intro d k sub hl hne
    rw [List.map_cons, List.foldlM_cons, List.foldlM_cons]
    obtain ⟨p1, prest, hparts⟩ : ∃ p1 prest, r.name_parts = p1 :: prest := by
      rcases hh : r.name_parts with _ | ⟨p1, prest⟩
      · exact absurd hh (hne r (by simp))
      · exact ⟨p1, prest, rfl⟩
    have hstep : include_record d ⟨k :: r.name_parts, r.value⟩
        = (include_go sub r.name_parts r.value).map
            fun sub2 => od_set d k (JVal.obj sub2) := by
      rw [include_record]
      show include_go d (k :: r.name_parts) r.value = _
      rw [hparts, include_go, hl]
    have hrec : include_record sub r = include_go sub r.name_parts r.value := rfl
    rw [hstep, hrec]
    cases hr : include_go sub r.name_parts r.value with
    | error err => simp only [except_map_error, except_bind_error]
    | ok sub2 =>
      simp only [except_map_ok, except_bind_ok]
      rw [ih (od_set d k (JVal.obj sub2)) k sub2
        (by rw [od_lookup_set_self])
        (fun r' hr' => hne r' (by simp [hr']))]
      cases hfold : rs.foldlM include_record sub2 with
      | error err => simp only [except_map_error]
      | ok subf => simp only [except_map_ok, od_set_set]

/-- Folding the builder over a nonempty batch of records all prefixed with a
fresh segment `k`, starting from the empty dict: the first record creates the
nested dict at `k` and the rest build inside it. -/
theorem include_all_prepend_new (r : PureRecord) (rs : List PureRecord) (k : String)
    (hne : ∀ x ∈ r :: rs, x.name_parts ≠ []) :
    ((r :: rs).map fun x => PureRecord.mk (k :: x.name_parts) x.value).foldlM
        include_record ([] : ODict)
      = ((r :: rs).foldlM include_record ([] : ODict)).map
          fun sub => [(k, JVal.obj sub)] := by
  rw [List.map_cons, List.foldlM_cons, List.foldlM_cons]
  obtain ⟨p1, prest, hparts⟩ : ∃ p1 prest, r.name_parts = p1 :: prest := by
    rcases hh : r.name_parts with _ | ⟨p1, prest⟩
    · exact absurd hh (hne r (by simp))
    · exact ⟨p1, prest, rfl⟩
  have hstep : include_record ([] : ODict) ⟨k :: r.name_parts, r.value⟩
      = (include_go [] r.name_parts r.value).map fun sub' => [(k, JVal.obj sub')] := by
    rw [include_record]
    show include_go [] (k :: r.name_parts) r.value = _
    rw [hparts, include_go]
    have hl : od_lookup ([] : ODict) k = none := rfl
    rw [hl]
    cases hr : include_go [] (p1 :: prest) r.value <;> simp [Except.map]
  have hrec : include_record ([] : ODict) r = include_go [] r.name_parts r.value := rfl
  rw [hstep, hrec]
  cases hr : include_go [] r.name_parts r.value with
  | error err => simp only [except_map_error, except_bind_error]
  | ok s1 =>
    simp only [except_map_ok, except_bind_ok]
    rw [include_all_prepend_existing rs [(k, JVal.obj s1)] k s1
      (by simp [od_lookup_cons])
      (fun x hx => hne x (by simp [hx]))]
    cases hfold : rs.foldlM include_record s1 with
    | error err => simp only [except_map_error]
    | ok subf => simp only [except_map_ok, od_set, if_pos]

/- ### Flattener lemmas -/

/-- Flattening under a parent prefix is flattening at the root with the prefix
prepended to every record path. -/
theorem collect_parent_shift : ∀ (fields : List (String × JVal)) (parent : List String),
    collect_records_from_json fields parent
      = (collect_records_from_json fields []).map
          (fun r => ⟨parent ++ r.name_parts, r.value⟩)
  | [], _ => by simp [collect_records_from_json]
  | (k, v) :: rest, parent => by
    cases v with
    | str s => simp [collect_records_from_json, collect_parent_shift rest parent]
    | num n => simp [collect_records_from_json, collect_parent_shift rest parent]
    | bool b => simp [collect_records_from_json, collect_parent_shift rest parent]
    | null => simp [collect_records_from_json, collect_parent_shift rest parent]
    | arr es => simp [collect_records_from_json, collect_parent_shift rest parent]
    | obj fields =>
      simp only [collect_records_from_json, collect_parent_shift fields (parent ++ [k]),
        collect_parent_shift fields ([] ++ [k]), collect_parent_shift rest parent, List.map_append,
        List.map_map]
      congr 1
      apply List.map_congr_left
      intro r _
      simp [List.append_assoc]

/-- Flattener equation: a scalar-string field emits one record and moves on. -/
theorem collect_cons_str (k s : String) (rest : List (String × JVal))
    (parent : List String) :
    collect_records_from_json ((k, JVal.str s) :: rest) parent
      = ⟨parent ++ [k], JVal.str s⟩ :: collect_records_from_json rest parent := by
  rw [collect_records_from_json]
  rfl

/-- Flattener equation: an array field emits one record and moves on. -/
theorem collect_cons_arr (k : String) (es : List JVal) (rest : List (String × JVal))
    (parent : List String) :
    collect_records_from_json ((k, JVal.arr es) :: rest) parent
      = ⟨parent ++ [k], JVal.arr es⟩ :: collect_records_from_json rest parent := by
  rw [collect_records_from_json]
  rfl

/-- Flattener equation: a nested object is recursed into. -/
theorem collect_cons_obj (k : String) (fields rest : List (String × JVal))
    (parent : List String) :
    collect_records_from_json ((k, JVal.obj fields) :: rest) parent
      = collect_records_from_json fields (parent ++ [k])
          ++ collect_records_from_json rest parent := by
  rw [collect_records_from_json]

/-- Flattener equation: a number field is silently skipped. -/
theorem collect_cons_num (k : String) (n : Int) (rest : List (String × JVal))
    (parent : List String) :
    collect_records_from_json ((k, JVal.num n) :: rest) parent
      = collect_records_from_json rest parent := by
  rw [collect_records_from_json] <;> simp

/-- Flattener equation: a boolean field is silently skipped. -/
theorem collect_cons_bool (k : String) (b : Bool) (rest : List (String × JVal))
    (parent : List String) :
    collect_records_from_json ((k, JVal.bool b) :: rest) parent
      = collect_records_from_json rest parent := by
  rw [collect_records_from_json] <;> simp

/-- Flattener equation: a null field is silently skipped. -/
theorem collect_cons_null (k : String) (rest : List (String × JVal))
    (parent : List String) :
    collect_records_from_json ((k, JVal.null) :: rest) parent
      = collect_records_from_json rest parent := by
  rw [collect_records_from_json] <;> simp

/-- A record as emitted for a well-formed JSON object: nonempty path, every
segment free of `::` and not ending in `':'`, value a string or an
all-strings array. -/
def strict_record (r : PureRecord) : Prop :=
  r.name_parts ≠ [] ∧
    (∀ p ∈ r.name_parts, containsSepB p.data = false ∧ lastIsColonB p.data = false) ∧
    good_value r.value

theorem strict_record_good (r : PureRecord) (h : strict_record r) : good_record r := by
  obtain ⟨h1, h2, h3⟩ := h
  exact ⟨⟨h1, fun p hp => (h2 p hp).1,
    fun p hp => (h2 p (List.dropLast_subset _ hp)).2⟩, h3⟩

theorem wf_fields_cons_num (strict : Bool) (k : String) (n : Int)
    (rest : List (String × JVal)) :
    wf_fields strict ((k, JVal.num n) :: rest) = false := by
  rw [wf_fields] <;> simp

theorem wf_fields_cons_bool (strict : Bool) (k : String) (b : Bool)
    (rest : List (String × JVal)) :
    wf_fields strict ((k, JVal.bool b) :: rest) = false := by
  rw [wf_fields] <;> simp

theorem wf_fields_cons_null (strict : Bool) (k : String)
    (rest : List (String × JVal)) :
    wf_fields strict ((k, JVal.null) :: rest) = false := by
  rw [wf_fields] <;> simp

/-- Key-level components of `wf_fields` at a cons cell. -/
theorem wf_fields_cons_key (strict : Bool) (k : String) (v : JVal)
    (rest : List (String × JVal)) (h : wf_fields strict ((k, v) :: rest) = true) :
    containsSepB k.data = false ∧ (strict = true → lastIsColonB k.data = false) ∧
      (∀ p ∈ rest, p.1 ≠ k) ∧ wf_fields strict rest = true := by
  cases v with
  | num n => rw [wf_fields_cons_num] at h; simp at h
  | bool b => rw [wf_fields_cons_bool] at h; simp at h
  | null => rw [wf_fields_cons_null] at h; simp at h
  | str s =>
    rw [wf_fields] at h
    simp only [Bool.and_eq_true] at h
    obtain ⟨⟨⟨⟨hsep, hcolon⟩, hnodup⟩, _⟩, hrest⟩ := h
    refine ⟨by simpa using hsep, fun hs => ?_, ?_, hrest⟩
    · rcases (by simpa using hcolon : strict = false ∨ lastIsColonB k.data = false)
        with h1 | h1
      · rw [hs] at h1; cases h1
      · exact h1
    intro p hp hpk
    simp only [Bool.not_eq_true', List.any_eq_false] at hnodup
    have := hnodup p hp
    simp [hpk] at this
  | arr es =>
    rw [wf_fields] at h
    simp only [Bool.and_eq_true] at h
    obtain ⟨⟨⟨⟨hsep, hcolon⟩, hnodup⟩, _⟩, hrest⟩ := h
    refine ⟨by simpa using hsep, fun hs => ?_, ?_, hrest⟩
    · rcases (by simpa using hcolon : strict = false ∨ lastIsColonB k.data = false)
        with h1 | h1
      · rw [hs] at h1; cases h1
      · exact h1
    intro p hp hpk
    simp only [Bool.not_eq_true', List.any_eq_false] at hnodup
    have := hnodup p hp
    simp [hpk] at this
  | obj fields =>
    rw [wf_fields] at h
    simp only [Bool.and_eq_true] at h
    obtain ⟨⟨⟨⟨hsep, hcolon⟩, hnodup⟩, _⟩, hrest⟩ := h
    refine ⟨by simpa using hsep, fun hs => ?_, ?_, hrest⟩
    · rcases (by simpa using hcolon : strict = false ∨ lastIsColonB k.data = false)
        with h1 | h1
      · rw [hs] at h1; cases h1
      · exact h1
    intro p hp hpk
    simp only [Bool.not_eq_true', List.any_eq_false] at hnodup
    have := hnodup p hp
    simp [hpk] at this

/-- The value component of `wf_fields` at an array value. -/
theorem wf_fields_cons_arr (strict : Bool) (k : String) (es : List JVal)
    (rest : List (String × JVal))
    (h : wf_fields strict ((k, JVal.arr es) :: rest) = true) :
    ∀ e ∈ es, is_str_val e = true := by
  rw [wf_fields] at h
  simp only [Bool.and_eq_true, List.all_eq_true] at h
  exact h.1.2

/-- The value component of `wf_fields` at a nested-object value. -/
theorem wf_fields_cons_obj (strict : Bool) (k : String)
    (fields rest : List (String × JVal))
    (h : wf_fields strict ((k, JVal.obj fields) :: rest) = true) :
    fields ≠ [] ∧ wf_fields strict fields = true := by
  rw [wf_fields] at h
  simp only [Bool.and_eq_true, Bool.not_eq_true', List.isEmpty_eq_false] at h
  exact h.1.2

/-- Every record flattened from a strictly well-formed object is strict. -/
theorem collect_strict : ∀ fields, wf_fields true fields = true →
    ∀ r ∈ collect_records_from_json fields [], strict_record r
  | [], _, r, hr => by simp [collect_records_from_json] at hr
  | (k, v) :: rest, h, r, hr => by
    obtain ⟨hsep, hcolon, _, hrest⟩ := wf_fields_cons_key true k v rest h
    cases v with
    | str s =>
      rw [collect_records_from_json, List.mem_append] at hr
      rcases hr with hr | hr
      · simp only [List.mem_singleton] at hr
        subst hr
        exact ⟨by simp, by simp [hsep, hcolon rfl], Or.inl ⟨s, rfl⟩⟩
      · exact collect_strict rest hrest r hr
    | arr es =>
      rw [collect_records_from_json, List.mem_append] at hr
      rcases hr with hr | hr
      · simp only [List.mem_singleton] at hr
        subst hr
        refine ⟨by simp, by simp [hsep, hcolon rfl], Or.inr ⟨es, rfl, ?_⟩⟩
        intro e he
        have := wf_fields_cons_arr true k es rest h e he
        cases e <;> simp [is_str_val] at this ⊢
      · exact collect_strict rest hrest r hr
    | obj fields =>
      obtain ⟨hfne, hfwf⟩ := wf_fields_cons_obj true k fields rest h
      rw [collect_records_from_json, List.mem_append] at hr
      rcases hr with hr | hr
      · rw [collect_parent_shift fields ([] ++ [k]), List.mem_map] at hr
        obtain ⟨r', hr', rfl⟩ := hr
        obtain ⟨hne', hseg', hval'⟩ := collect_strict fields hfwf r' hr'
        refine ⟨by simp, ?_, hval'⟩
        intro p hp
        simp only [List.nil_append, List.singleton_append, List.mem_cons] at hp
        rcases hp with rfl | hp
        · exact ⟨hsep, hcolon rfl⟩
        · exact hseg' p hp
      · exact collect_strict rest hrest r hr
    | num n =>
      rw [wf_fields_cons_num] at h
      exact absurd h (by simp)
    | bool b =>
      rw [wf_fields_cons_bool] at h
      exact absurd h (by simp)
    | null =>
      rw [wf_fields_cons_null] at h
      exact absurd h (by simp)

/-- The head segment of every flattened record is one of the object's own
keys. -/
theorem collect_head : ∀ (fields : List (String × JVal)) (r : PureRecord),
    r ∈ collect_records_from_json fields [] →
      ∃ k p, r.name_parts = k :: p ∧ k ∈ fields.map Prod.fst
  | [], r, hr => by simp [collect_records_from_json] at hr
  | (k, v) :: rest, r, hr => by
    have hrec : ∀ hr' : r ∈ collect_records_from_json rest [],
        ∃ k' p, r.name_parts = k' :: p ∧ k' ∈ ((k, v) :: rest).map Prod.fst := by
      intro hr'
      obtain ⟨k', p, hp, hk⟩ := collect_head rest r hr'
      exact ⟨k', p, hp, by simp [hk]⟩
    cases v with
    | str s =>
      rw [collect_records_from_json, List.mem_append] at hr
      rcases hr with hr | hr
      · simp only [List.mem_singleton] at hr
        subst hr
        exact ⟨k, [], by simp, by simp⟩
      · exact hrec hr
    | arr es =>
      rw [collect_records_from_json, List.mem_append] at hr
      rcases hr with hr | hr
      · simp only [List.mem_singleton] at hr
        subst hr
        exact ⟨k, [], by simp, by simp⟩
      · exact hrec hr
    | obj fields =>
      rw [collect_records_from_json, List.mem_append] at hr
      rcases hr with hr | hr
      · rw [collect_parent_shift fields ([] ++ [k]), List.mem_map] at hr
        obtain ⟨r', _, rfl⟩ := hr
        exact ⟨k, r'.name_parts, by simp, by simp⟩
      · exact hrec hr
    | num n =>
      rw [collect_cons_num] at hr
      exact hrec hr
    | bool b =>
      rw [collect_cons_bool] at hr
      exact hrec hr
    | null =>
      rw [collect_cons_null] at hr
      exact hrec hr

/-- A nonempty strictly well-formed object flattens to at least one record. -/
theorem collect_ne_nil : ∀ fields, wf_fields true fields = true → fields ≠ [] →
    collect_records_from_json fields [] ≠ []
  | [], _, hne => absurd rfl hne
  | (k, v) :: rest, h, _ => by
    cases v with
    | str s => simp [collect_records_from_json]
    | arr es => simp [collect_records_from_json]
    | obj fields =>
      obtain ⟨hfne, hfwf⟩ := wf_fields_cons_obj true k fields rest h
      rw [collect_records_from_json]
      simp only [ne_eq, List.append_eq_nil, not_and]
      intro hcontra
      rw [collect_parent_shift fields ([] ++ [k])] at hcontra
      exact absurd (List.map_eq_nil_iff.mp hcontra) (collect_ne_nil fields hfwf hfne)
    | num n =>
      rw [wf_fields_cons_num] at h
      exact absurd h (by simp)
    | bool b =>
      rw [wf_fields_cons_bool] at h
      exact absurd h (by simp)
    | null =>
      rw [wf_fields_cons_null] at h
      exact absurd h (by simp)

/-- Building the records flattened from a strictly well-formed JSON object
reconstructs exactly that object. -/
theorem build_collect : ∀ fields, wf_fields true fields = true →
    write_records_to_json (collect_records_from_json fields []) = .ok fields
  | [], _ => by rw [collect_records_from_json]; rfl
  | (k, v) :: rest, h => by
    obtain ⟨hsep, hcolon, hnodup, hrest⟩ := wf_fields_cons_key true k v rest h
    have hdisj : ∀ r ∈ collect_records_from_json rest [],
        ∃ k' p, r.name_parts = k' :: p ∧ ∀ q ∈ ([(k, v)] : ODict), q.1 ≠ k' := by
      intro r hr
      obtain ⟨k', p, hp, hk⟩ := collect_head rest r hr
      refine ⟨k', p, hp, ?_⟩
      intro q hq
      simp only [List.mem_singleton] at hq
      subst hq
      rw [List.mem_map] at hk
      obtain ⟨q', hq', rfl⟩ := hk
      exact fun hc => hnodup q' hq' (by simpa using hc.symm)
    have htail : ∀ dv : JVal,
        List.foldlM include_record ([(k, dv)] : ODict)
            (collect_records_from_json rest [])
          = .ok ((k, dv) :: rest) := by
      intro dv
      have hd : ([(k, dv)] : ODict) = [(k, dv)] ++ [] := by simp
      have hdisj' : ∀ r ∈ collect_records_from_json rest [],
          ∃ k' p, r.name_parts = k' :: p ∧ ∀ q ∈ ([(k, dv)] : ODict), q.1 ≠ k' := by
        intro r hr
        obtain ⟨k', p, hp, hk⟩ := hdisj r hr
        exact ⟨k', p, hp, fun q hq => by
          simp only [List.mem_singleton] at hq
          subst hq
          exact hk (k, v) (by simp)⟩
      rw [hd, include_all_append_disjoint _ [(k, dv)] [] hdisj']
      have hbuild : List.foldlM include_record ([] : ODict)
          (collect_records_from_json rest []) = .ok rest := build_collect rest hrest
      rw [hbuild, except_map_ok]
      simp
    rw [write_records_to_json] at *
    cases v with
    | str s =>
      rw [collect_records_from_json]
      rw [List.foldlM_append, List.foldlM_cons]
      have hone : include_record ([] : ODict) ⟨[] ++ [k], JVal.str s⟩
          = .ok [(k, JVal.str s)] := by
        rw [include_record]
        show include_go [] ([] ++ [k]) (JVal.str s) = _
        simp [include_go, od_set]
      rw [hone, except_bind_ok, List.foldlM_nil, except_pure, except_bind_ok]
      exact htail (JVal.str s)
    | arr es =>
      rw [collect_records_from_json]
      rw [List.foldlM_append, List.foldlM_cons]
      have hone : include_record ([] : ODict) ⟨[] ++ [k], JVal.arr es⟩
          = .ok [(k, JVal.arr es)] := by
        rw [include_record]
        show include_go [] ([] ++ [k]) (JVal.arr es) = _
        simp [include_go, od_set]
      rw [hone, except_bind_ok, List.foldlM_nil, except_pure, except_bind_ok]
      exact htail (JVal.arr es)
    | obj fields =>
      obtain ⟨hfne, hfwf⟩ := wf_fields_cons_obj true k fields rest h
      rw [collect_records_from_json]
      rw [List.foldlM_append]
      have hmapform : collect_records_from_json fields ([] ++ [k])
          = (collect_records_from_json fields []).map
              fun r => PureRecord.mk (k :: r.name_parts) r.value := by
        rw [collect_parent_shift fields ([] ++ [k])]
        apply List.map_congr_left
        intro r _
        simp
      obtain ⟨r0, rs0, hcoll⟩ : ∃ r0 rs0,
          collect_records_from_json fields [] = r0 :: rs0 := by
        rcases hc : collect_records_from_json fields [] with _ | ⟨r0, rs0⟩
        · exact absurd hc (collect_ne_nil fields hfwf hfne)
        · exact ⟨r0, rs0, rfl⟩
      have hne : ∀ x ∈ r0 :: rs0, x.name_parts ≠ [] := by
        intro x hx
        rw [← hcoll] at hx
        exact (collect_strict fields hfwf x hx).1
      rw [hmapform, hcoll, include_all_prepend_new r0 rs0 k hne]
      have hbuildf : List.foldlM include_record ([] : ODict) (r0 :: rs0)
          = .ok fields := by
        rw [← hcoll]
        exact build_collect fields hfwf
      rw [hbuildf, except_map_ok, except_bind_ok]
      exact htail (JVal.obj fields)
    | num n =>
      rw [wf_fields_cons_num] at h
      exact absurd h (by simp)
    | bool b =>
      rw [wf_fields_cons_bool] at h
      exact absurd h (by simp)
    | null =>
      rw [wf_fields_cons_null] at h
      exact absurd h (by simp)

/- ### Remaining helper lemmas -/

theorem natToDecimalString_one : natToDecimalString 1 = "1" := by
  rw [natToDecimalString, if_neg (by norm_num)]
  rw [Nat.digits_def' (by norm_num : (1 : Nat) < 10) (by norm_num : 0 < 1)]
  norm_num
  rfl

/-- `skip_iter_items` is exactly `List.drop`. -/
theorem skip_iter_items_eq_drop : ∀ (rows : List Row) (n : Nat),
    skip_iter_items rows n = rows.drop n
  | rows, 0 => by cases rows <;> rfl
  | [], _ + 1 => rfl
  | _ :: rest, n + 1 => skip_iter_items_eq_drop rest n

/-- Every element of a successful `mapM` image comes from some element of the
source list. -/
theorem mapM_ok_mem {α β : Type} (f : α → Except PyErr β) :
    ∀ (xs : List α) (ys : List β), xs.mapM f = .ok ys →
      ∀ y ∈ ys, ∃ x ∈ xs, f x = .ok y := by
  intro xs
  induction xs with
  | nil =>
    intro ys h y hy
    rw [List.mapM_nil] at h
    cases h
    simp at hy
  | cons x xs ih =>
    intro ys h y hy
    rw [List.mapM_cons] at h
    cases hx : f x with
    | error e => rw [hx] at h; exact absurd h (by simp [except_bind_error])
    | ok b =>
      rw [hx, except_bind_ok] at h
      cases hrest : xs.mapM f with
      | error e => rw [hrest] at h; exact absurd h (by simp [except_bind_error])
      | ok bs =>
        rw [hrest, except_bind_ok] at h
        have hys : ys = b :: bs := by
          have : (pure (b :: bs) : Except PyErr (List β)) = .ok (b :: bs) := rfl
          rw [this] at h
          cases h
          rfl
        subst hys
        rcases hy with _ | hy
        · exact ⟨x, by simp, hx⟩
        · next hy =>
          obtain ⟨x', hx', hfx'⟩ := ih bs hrest y hy
          exact ⟨x', by simp [hx'], hfx'⟩

/-- The path of any successfully converted record is the parse of its key. -/
theorem to_pure_parts (c : CSVRecord) (r : PureRecord)
    (h : c.to_pure_record = .ok r) :
    r.name_parts = RecordNameParts.from_str c.key := by
  rw [CSVRecord.to_pure_record] at h
  split at h
  · split at h
    · exact absurd h (by simp)
    · cases h; rfl
  · cases h; rfl

/- ### Claim theorems -/

/-- C1 (amended): for every JSON object whose leaf values are only strings or
arrays of strings, whose keys contain no `::` substring and do not end in the
character `':'`, with distinct keys at every level and no empty nested
objects, flattening to pure records, writing them as tabular rows, reading
the rows back (selecting column 1), and rebuilding yields an object
structurally equal to the original, key order included. -/
theorem claim_C1 (fields : ODict) (h : wf_fields true fields = true) :
    json_to_csv_to_json fields = .ok fields := by
  have hgood : ∀ r ∈ collect_records_from_json fields [], good_record r :=
    fun r hr => strict_record_good r (collect_strict fields h r hr)
  obtain ⟨rows, hw, hread⟩ := read_records_write_records _ hgood
  rw [json_to_csv_to_json]
  simp only [hw, hread]
  exact build_collect fields h

/-- Witness for C1: the round trip at the documentation's own example object. -/
theorem claim_C1_witness :
    wf_fields true
        [("Cards", JVal.obj [("Strike", JVal.obj [("NAME", JVal.str "Strike")])])]
      = true ∧
    json_to_csv_to_json
        [("Cards", JVal.obj [("Strike", JVal.obj [("NAME", JVal.str "Strike")])])]
      = .ok [("Cards", JVal.obj [("Strike", JVal.obj [("NAME", JVal.str "Strike")])])] :=
  ⟨by simp [wf_fields, containsSepB, lastIsColonB],
   claim_C1 _ (by simp [wf_fields, containsSepB, lastIsColonB])⟩

/-- Counterexample for C1 as stated: the object `{"a:": {"b": "X"}}` has only
string leaves and no `::` in its keys, yet the round trip returns
`{"a": {":b": "X"}}` — the joined key `a:::b` re-splits at the wrong
position. -/
theorem claim_C1_counterexample :
    wf_fields false [("a:", JVal.obj [("b", JVal.str "X")])] = true ∧
    json_to_csv_to_json [("a:", JVal.obj [("b", JVal.str "X")])]
      = .ok [("a", JVal.obj [(":b", JVal.str "X")])] ∧
    json_to_csv_to_json [("a:", JVal.obj [("b", JVal.str "X")])]
      ≠ .ok [("a:", JVal.obj [("b", JVal.str "X")])] := by
  refine ⟨by simp [wf_fields, containsSepB], ?_, ?_⟩
  · simp only [json_to_csv_to_json, collect_records_from_json]
    rfl
  · intro hc
    rw [show json_to_csv_to_json [("a:", JVal.obj [("b", JVal.str "X")])]
        = .ok [("a", JVal.obj [(":b", JVal.str "X")])] by
      simp only [json_to_csv_to_json, collect_records_from_json]
      rfl] at hc
    simp at hc

/-- C2: the flattener emits one record per scalar-string leaf and per array
leaf, and recurses only into mapping values; the object
`{"Cards":{"Strike":{"NAME":"Strike"}}}` flattens to exactly one record with
path `["Cards","Strike","NAME"]`, rendered key `Cards::Strike::NAME`, and
scalar value `"Strike"`. -/
theorem claim_C2 :
    (∀ (k s : String) (rest : List (String × JVal)) (parent : List String),
        collect_records_from_json ((k, JVal.str s) :: rest) parent
          = ⟨parent ++ [k], JVal.str s⟩ :: collect_records_from_json rest parent) ∧
    (∀ (k : String) (es : List JVal) (rest : List (String × JVal))
        (parent : List String),
        collect_records_from_json ((k, JVal.arr es) :: rest) parent
          = ⟨parent ++ [k], JVal.arr es⟩ :: collect_records_from_json rest parent) ∧
    (∀ (k : String) (fields rest : List (String × JVal)) (parent : List String),
        collect_records_from_json ((k, JVal.obj fields) :: rest) parent
          = collect_records_from_json fields (parent ++ [k])
              ++ collect_records_from_json rest parent) ∧
    collect_records_from_json
        [("Cards", JVal.obj [("Strike", JVal.obj [("NAME", JVal.str "Strike")])])] []
      = [⟨["Cards", "Strike", "NAME"], JVal.str "Strike"⟩] ∧
    RecordNameParts.render ["Cards", "Strike", "NAME"] = "Cards::Strike::NAME" :=
  ⟨collect_cons_str, collect_cons_arr, collect_cons_obj,
   by simp [collect_records_from_json], rfl⟩

/-- C3 (amended): a key row whose type marker is neither `-` nor a parseable
integer makes `read_one_record` fail with the raw `ValueError` coming from
the `int()` call inside `get_number_of_values_for_type` — before any record
is constructed — not with a `VerificationFailure` from `verify()`. -/
theorem claim_C3 (t key : String) (rows : List Row) (e : PyErr)
    (ht : t ≠ "-") (h : pythonInt t = .error e) :
    CSVRecordReader.read_one_record 1 ([t, key] :: rows) = .error e ∧
      e = .valueError t ∧ e.isVerificationFailure = false := by
  have he : e = .valueError t := CSVRecordReader.pythonInt_error t e h
  have hnum : CSVRecord.get_number_of_values_for_type t = .error e := by
    rw [CSVRecord.get_number_of_values_for_type, if_neg ht, h]
  have hkey : CSVRecordReader.verify_key_row [t, key] = .ok () := rfl
  refine ⟨?_, he, by rw [he]; rfl⟩
  rw [CSVRecordReader.read_one_record]
  have hgetd : ([t, key] : Row).getD 0 "" = t := rfl
  simp only [hkey, hgetd, hnum]

/-- Witness for C3: the key row `("abc", "A::B")` followed by one value row
fails with `ValueError` on `"abc"`, which is not a verification failure. -/
theorem claim_C3_witness :
    CSVRecordReader.read_one_record 1 [["abc", "A::B"], ["", "x"]]
        = .error (.valueError "abc") ∧
      PyErr.valueError "abc" = .valueError "abc" ∧
      (PyErr.valueError "abc").isVerificationFailure = false :=
  claim_C3 "abc" "A::B" [["", "x"]] (.valueError "abc") (by decide) rfl

/-- Counterexample for C3 as stated: reading the key row `("abc", "A::B")`
followed by one value row surfaces the `ValueError` from integer parsing of
the marker, not a `VerificationFailure` on a constructed record. -/
theorem claim_C3_counterexample :
    read_records_from_csv [["abc", "A::B"], ["", "x"]] 1 0
        = .error (.valueError "abc") ∧
      (PyErr.valueError "abc").isVerificationFailure = false := ⟨rfl, rfl⟩

/-- C4: a scalar record `(path, "X")` serializes with the scalar marker `-`
and a singleton value list and deserializes back to the scalar string, never
to the singleton array; a one-element array record `(path, ["X"])` serializes
with marker `1` and deserializes back to the one-element array, so the
scalar/singleton-array distinction survives the round trip. -/
theorem claim_C4 (parts : List String) (s : String) :
    CSVRecord.from_pure_record ⟨parts, JVal.str s⟩
      = .ok ⟨"-", RecordNameParts.render parts, [JVal.str s]⟩ ∧
    CSVRecord.to_pure_record ⟨"-", RecordNameParts.render parts, [JVal.str s]⟩
      = .ok ⟨RecordNameParts.from_str (RecordNameParts.render parts), JVal.str s⟩ ∧
    JVal.str s ≠ JVal.arr [JVal.str s] ∧
    CSVRecord.from_pure_record ⟨parts, JVal.arr [JVal.str s]⟩
      = .ok ⟨"1", RecordNameParts.render parts, [JVal.str s]⟩ ∧
    CSVRecord.to_pure_record ⟨"1", RecordNameParts.render parts, [JVal.str s]⟩
      = .ok ⟨RecordNameParts.from_str (RecordNameParts.render parts),
          JVal.arr [JVal.str s]⟩ := by
  refine ⟨rfl, rfl, by simp, ?_, rfl⟩
  rw [CSVRecord.from_pure_record]
  simp only [List.length_cons, List.length_nil, Nat.zero_add, natToDecimalString_one]

/-- C5 (amended): for every nonempty name path whose segments contain no `::`
substring and whose segments before the last do not end in `':'`, parsing the
rendered joined-string form gives back exactly the path. -/
theorem claim_C5 (parts : List String) (h1 : parts ≠ [])
    (h2 : ∀ p ∈ parts, containsSepB p.data = false)
    (h3 : ∀ p ∈ parts.dropLast, lastIsColonB p.data = false) :
    RecordNameParts.from_str (RecordNameParts.render parts) = parts :=
  from_str_render parts h1 h2 h3

/-- Witness for C5: the round trip at the path `["A", "B"]`. -/
theorem claim_C5_witness :
    RecordNameParts.from_str (RecordNameParts.render ["A", "B"]) = ["A", "B"] :=
  claim_C5 ["A", "B"] (by simp) (by decide) (by decide)

/-- Counterexample for C5 as stated: the path `["a:", "b"]` has no `::` in
either segment, yet its rendered form `a:::b` parses back to `["a", ":b"]`;
the empty path also fails, parsing back to `[""]`. -/
theorem claim_C5_counterexample :
    containsSepB "a:".data = false ∧ containsSepB "b".data = false ∧
    RecordNameParts.from_str (RecordNameParts.render ["a:", "b"]) = ["a", ":b"] ∧
    RecordNameParts.from_str (RecordNameParts.render ["a:", "b"]) ≠ ["a:", "b"] ∧
    RecordNameParts.from_str (RecordNameParts.render ([] : List String)) = [""] :=
  ⟨rfl, rfl, rfl, by decide, rfl⟩

/-- C6: a pure record with the empty-list value converts to a key row with
marker `0` and zero value rows, and reading a key row with marker `0`
succeeds without error, yielding a record with the empty-list value. -/
theorem claim_C6 (parts : List String) (key : String) (rest : List Row) :
    CSVRecord.from_pure_record ⟨parts, JVal.arr []⟩
      = .ok ⟨"0", RecordNameParts.render parts, []⟩ ∧
    CSVRecord.write_to_csv ⟨"0", RecordNameParts.render parts, []⟩
      = [["0", RecordNameParts.render parts]] ∧
    CSVRecordReader.read_one_record 1 (["0", key] :: rest)
      = .ok (⟨"0", key, []⟩, rest) ∧
    CSVRecord.to_pure_record ⟨"0", key, []⟩
      = .ok ⟨RecordNameParts.from_str key, JVal.arr []⟩ :=
  ⟨rfl, rfl, rfl, rfl⟩

/-- C7: `read_all_records` stops cleanly exactly when the first row of an
attempted key-row read is absent — `read_one_record` surfaces the
end-of-rows signal if and only if the input is empty, and reading an empty
input returns `[]` with no error — while a key row declaring more value rows
than remain raises a `CSVFormatException` reporting the expected versus
actual counts. -/
theorem claim_C7 :
    (∀ (col : Nat) (rows : List Row),
        CSVRecordReader.read_one_record col rows = .error .csvEndOfRows ↔ rows = []) ∧
    (∀ col : Nat, CSVRecordReader.read_all_records col [] = .ok []) ∧
    CSVRecordReader.read_all_records 1 [["2", "A::B"], ["", "x"]]
      = .error (.csvFormatValuesNumber 2 1) ∧
    (PyErr.csvFormatValuesNumber 2 1).isCSVFormat = true :=
  ⟨CSVRecordReader.read_one_record_eor_iff, fun _ => rfl, rfl, rfl⟩

/-- C8: with `skipped_rows = N`, `read_records_from_csv` discards the first N
rows unconditionally — even malformed ones, without error — and record
parsing starts at row N+1; concretely, a malformed first row is skipped with
`skipped_rows = 1` and the remaining record is read. -/
theorem claim_C8 :
    (∀ (rows : List Row) (col n : Nat),
        read_records_from_csv rows col n = read_records_from_csv (rows.drop n) col 0) ∧
    read_records_from_csv [["bad"], ["-", "A"], ["", "x"]] 1 1
      = .ok [⟨["A"], JVal.str "x"⟩] := by
  refine ⟨?_, rfl⟩
  intro rows col n
  rw [read_records_from_csv, read_records_from_csv, skip_iter_items_eq_drop]
  rw [show skip_iter_items (rows.drop n) 0 = rows.drop n from
    skip_iter_items_eq_drop (rows.drop n) 0]

/-- C9: during flattening, a value that is neither a sequence nor a mapping —
a number, a boolean, or null — is silently skipped: the flattened output is
exactly that of the remaining fields, with no record emitted and no error. -/
theorem claim_C9 :
    (∀ (k : String) (n : Int) (rest : List (String × JVal)) (parent : List String),
        collect_records_from_json ((k, JVal.num n) :: rest) parent
          = collect_records_from_json rest parent) ∧
    (∀ (k : String) (b : Bool) (rest : List (String × JVal)) (parent : List String),
        collect_records_from_json ((k, JVal.bool b) :: rest) parent
          = collect_records_from_json rest parent) ∧
    (∀ (k : String) (rest : List (String × JVal)) (parent : List String),
        collect_records_from_json ((k, JVal.null) :: rest) parent
          = collect_records_from_json rest parent) :=
  ⟨collect_cons_num, collect_cons_bool, collect_cons_null⟩

/-- C10: every pure record produced by a successful `read_records_from_csv`
has a nonempty name path (splitting any string yields at least one segment),
so the JSON builder's access to the path's last segment never indexes an
empty path — `include_record` can never raise the empty-path `IndexError` on
such a record. -/
theorem claim_C10 (rows : List Row) (col skip : Nat) (recs : List PureRecord)
    (h : read_records_from_csv rows col skip = .ok recs) :
    ∀ r ∈ recs, r.name_parts ≠ [] ∧
      ∀ d : ODict, include_record d r ≠ .error .indexError := by
  intro r hr
  rw [read_records_from_csv] at h
  split at h
  · exact absurd h (by simp)
  · split at h
    · exact absurd h (by simp)
    · next cs hcs =>
      obtain ⟨c, _, hc⟩ := mapM_ok_mem CSVRecord.to_pure_record cs recs h r hr
      have hparts : r.name_parts = RecordNameParts.from_str c.key :=
        to_pure_parts c r hc
      have hne : r.name_parts ≠ [] := by
        rw [hparts]
        exact from_str_ne_nil c.key
      exact ⟨hne, fun d => include_go_ne_indexError r.name_parts d r.value hne⟩

/-- Witness for C10: the record read from a two-row scalar input has a
nonempty path and never trips the builder's `IndexError`. -/
theorem claim_C10_witness :
    (⟨["A", "B"], JVal.str "x"⟩ : PureRecord).name_parts ≠ [] ∧
      ∀ d : ODict, include_record d ⟨["A", "B"], JVal.str "x"⟩
        ≠ .error .indexError :=
  claim_C10 [["-", "A::B"], ["", "x"]] 1 0 [⟨["A", "B"], JVal.str "x"⟩] rfl
    ⟨["A", "B"], JVal.str "x"⟩ (by simp)

end StsL10n
